import Mathlib

/-!
Verification of the Art Inspector batch-queue orchestration layer.

This file is a shallow embedding of the application's core logic:

* the retry policy engine (`runWithRetry` in the Gemini service module),
* the remote-extraction post-processing (SKU deduplication, catalog
  confirmation override, spelling fallback),
* the reconciliation engine (price parsing and mismatch flags of the
  `ProductCard` and `PriceIntegrityAlert` components),
* the batch queue scheduler of `App.tsx` (`processNextItem`,
  `processItemAtIndex`, `forceProcessQueue`, `cancelAllPending`).

JavaScript numbers are modelled as rationals, with `Option` results where
`parseFloat` can produce `NaN`.  JavaScript exceptions are modelled with
`Except`.  The external `JSON.parse` builtin is an oracle parameter: the
definitions that depend on it quantify over its outcome.  The asynchronous
React state updates of the scheduler are modelled by an explicit step
relation on a scheduler state (queue, worker lock, set of live pipeline
executions); the deterministic scheduling loop with an instantly finishing
pipeline is modelled by the function `runQueue`.
-/

namespace ArtInspector

/-! ## Small models of JavaScript string builtins -/

/-- Whitespace characters removed by the JavaScript `String.prototype.trim`. -/
def isJsSpace (c : Char) : Bool :=
  c = ' ' || c = '\t' || c = '\n' || c = '\r'

/-- Model of the JavaScript `sku.trim()` call. -/
def jsTrim (s : String) : String :=
  String.mk (((s.toList.dropWhile isJsSpace).reverse.dropWhile isJsSpace).reverse)

/-- Model of the JavaScript `s.includes(pat)` substring test. -/
def strContains (s pat : String) : Bool :=
  s.toList.tails.any (fun t => pat.toList.isPrefixOf t)

/-- Model of the JavaScript `s.toLowerCase()` call (ASCII letters). -/
def jsToLower (s : String) : String :=
  String.mk (s.toList.map Char.toLower)

/-- Model of `s.replace(/[^0-9.]/g, '')`: keep only digits and dots. -/
def stripNonNumeric (s : String) : String :=
  String.mk (s.toList.filter (fun c => c.isDigit || c = '.'))

/-- Model of the JavaScript global replace of `-` by the empty string:
remove all hyphens. -/
def stripHyphens (s : String) : String :=
  String.mk (s.toList.filter (fun c => c ≠ '-'))

/-- Model of `s.slice(0, n)`. -/
def jsSlice (s : String) (n : ℕ) : String :=
  String.mk (s.toList.take n)

/-- Numeric value of a list of decimal digit characters. -/
def digitsToNat (cs : List Char) : ℕ :=
  cs.foldl (fun n c => 10 * n + (c.toNat - '0'.toNat)) 0

/-- Model of the JavaScript `parseFloat` applied to a string made only of
digits and dots (the output of `stripNonNumeric`): it reads an integer part,
then an optional fractional part after the first dot, and ignores the rest;
the result is `none` (JavaScript `NaN`) when no digit was read at all. -/
def parseJsFloat (s : String) : Option ℚ :=
  let cs := s.toList
  let ip := cs.takeWhile Char.isDigit
  let rest := cs.dropWhile Char.isDigit
  let fp := match rest with
    | '.' :: t => t.takeWhile Char.isDigit
    | _ => []
  if ip.isEmpty && fp.isEmpty then none
  else some ((digitsToNat ip : ℚ) + (digitsToNat fp : ℚ) / ((10 : ℚ) ^ fp.length))

/-! ## Data model -/

/-- One entry of a spelling report. -/
structure SpellingCorrection where
  original : String
  suggestion : String
  context : Option String
deriving DecidableEq

/-- `SpellingAnalysis` of `types.ts`. -/
structure SpellingAnalysis where
  hasErrors : Bool
  corrections : List SpellingCorrection
deriving DecidableEq

/-- The neutral spelling value `{ hasErrors: false, corrections: [] }`. -/
def neutralSpelling : SpellingAnalysis := ⟨false, []⟩

/-- The fields of the provider's catalog JSON used by `validateSkuWithWeb`
and the result type `NoveyProductDetails` of `types.ts`.  `none` models an
absent (`undefined`) field. -/
structure CatalogData where
  found : Bool
  title : Option String
  price : Option String
  regularPrice : Option String
  url : Option String
  imageUrl : Option String
  description : Option String
  skuSuggestion : Option String
deriving DecidableEq

/-- A raw product entry of the extraction response (`ExtractedProductRaw`). -/
structure RawProduct where
  sku : String
  priceOnArt : Option ℚ
  visualDescription : Option String
deriving DecidableEq

/-- `ProductResultItem` of `types.ts`: one validated product shown by
`SkuResult`. -/
structure ProductResultItem where
  sku : String
  priceOnArt : Option ℚ
  visualDescription : Option String
  contentMismatch : Bool
  details : CatalogData
deriving DecidableEq

/-- A JavaScript error value as inspected by the code: an optional `status`
field and an optional `message` field. -/
structure JsError where
  status : Option ℕ
  message : Option String
deriving DecidableEq

/-! ## Credential lookup (`getAiClient` of the service module) -/

/-- Model of `getAiClient`: prefers the environment key (truthy, and not the
literal string `undefined`), then the locally stored key (truthy); when both
are missing it throws `Error("API_KEY_MISSING")`. -/
def getAiClient (envKey localKey : Option String) : Except JsError Unit :=
  if (match envKey with
      | some k => decide (k ≠ "") && decide (k ≠ "undefined")
      | none => false) then .ok ()
  else if (match localKey with
      | some k => decide (k ≠ "")
      | none => false) then .ok ()
  else .error ⟨none, some "API_KEY_MISSING"⟩

/-! ## Retry policy engine (`runWithRetry`) -/

/-- `isRateLimit` test of `runWithRetry`: message contains `429` or
`too many requests` (after lower-casing), or `status === 429`. -/
def isRateLimit (e : JsError) : Bool :=
  let m := jsToLower (e.message.getD "")
  strContains m "429" || e.status == some 429 || strContains m "too many requests"

/-- `isOverloaded` test of `runWithRetry`: message contains `503` or
`overloaded` (after lower-casing), or `status === 503`. -/
def isOverloaded (e : JsError) : Bool :=
  let m := jsToLower (e.message.getD "")
  strContains m "503" || e.status == some 503 || strContains m "overloaded"

/-- The wait in milliseconds executed after the failed attempt with 0-based
loop index `i`: `(isOverloaded ? 4000 : 2000) * (i + 1)` for rate-limit or
overload signals, a flat `1000` otherwise. -/
def retryDelay (e : JsError) (i : ℕ) : ℕ :=
  if isRateLimit e || isOverloaded e then
    (if isOverloaded e then 4000 else 2000) * (i + 1)
  else 1000

/-- Outcome of `runWithRetry`: either a success value or the re-raised last
error (`none` models re-throwing the still-`undefined` `lastError` when the
loop body never ran). -/
inductive RetryResult (α : Type) where
  | ok (a : α)
  | failed (last : Option JsError)
deriving DecidableEq

/-- The retry loop of `runWithRetry`, from loop index `i` with `n` attempts
remaining.  `op k` is the outcome of the `k`-th invocation (0-based) of the
wrapped operation.  Returns the final outcome together with the list of
executed backoff waits (one after every failed attempt, in order). -/
def runWithRetryFrom (op : ℕ → Except JsError α) :
    ℕ → ℕ → Option JsError → RetryResult α × List ℕ
  | _, 0, last => (.failed last, [])
  | i, n + 1, _ =>
    match op i with
    | .ok a => (.ok a, [])
    | .error e =>
      let r := runWithRetryFrom op (i + 1) n (some e)
      (r.1, retryDelay e i :: r.2)

/-- Model of `runWithRetry(operation, retries)`. -/
def runWithRetry (op : ℕ → Except JsError α) (retries : ℕ) :
    RetryResult α × List ℕ :=
  runWithRetryFrom op 0 retries none

/-! ## Extraction client (`extractSkuFromImage`) -/

/-- The deduplication loop of `extractSkuFromImage`: trim each SKU, skip it
when the trimmed code was already seen (case-sensitive set membership), and
otherwise keep the entry with its first-seen price and description. -/
def dedupBySku : List RawProduct → List String → List RawProduct
  | [], _ => []
  | p :: rest, seen =>
    let c := jsTrim p.sku
    if c ∈ seen then dedupBySku rest seen
    else ⟨c, p.priceOnArt, p.visualDescription⟩ :: dedupBySku rest (c :: seen)

/-- The parsed extraction response: `products` may be absent
(`parsed.products || []`). -/
structure ParsedExtraction where
  products : Option (List RawProduct)
deriving DecidableEq

/-- Post-processing of the extraction response (`extractSkuFromImage` after
the provider call): a missing or empty body throws `No response from AI`;
otherwise the body is parsed by the `JSON.parse` oracle `parse` (whose
failure propagates) and the product list is deduplicated. -/
def extractFromResponse (resultText : Option String)
    (parse : String → Except JsError ParsedExtraction) :
    Except JsError (List RawProduct) :=
  match resultText with
  | none => .error ⟨none, some "No response from AI"⟩
  | some t =>
    if t = "" then .error ⟨none, some "No response from AI"⟩
    else
      match parse t with
      | .error e => .error e
      | .ok parsed => .ok (dedupBySku (parsed.products.getD []) [])

/-! ## Spelling audit (`checkSpellingInImage`) -/

/-- `checkSpellingInImage` of `services/geminiService.ts` (both concatenated
revisions): the whole body is inside `try`/`catch`, an absent or empty
response text yields the neutral value, and any `JSON.parse` failure is
caught and also yields the neutral value. -/
def checkSpellingInImagePlain (resultText : Option String)
    (parse : String → Except JsError SpellingAnalysis) : SpellingAnalysis :=
  match resultText with
  | none => neutralSpelling
  | some t =>
    if t = "" then neutralSpelling
    else
      match parse t with
      | .ok r => r
      | .error _ => neutralSpelling

/-- `checkSpellingInImage` of the retry-wrapped service revision
(`src/unnamed/part_000`): the operation returns the neutral value on an
absent or empty response text, but a `JSON.parse` failure escapes the
operation and is handled by `runWithRetry` with 2 attempts.
`resultText i` is the response body of the `i`-th attempt. -/
def checkSpellingInImageRetry (resultText : ℕ → Option String)
    (parse : String → Except JsError SpellingAnalysis) :
    RetryResult SpellingAnalysis × List ℕ :=
  runWithRetry (fun i =>
    match resultText i with
    | none => .ok neutralSpelling
    | some t => if t = "" then .ok neutralSpelling else parse t) 2

/-! ## Catalog lookup (`validateSkuWithWeb` of `src/unnamed/part_000`) -/

/-- The truthiness-guarded containment test
`field && (field.includes(sku) || field.includes(cleanSku))`. -/
def jsFieldContains (fld : Option String) (sku cleanSku : String) : Bool :=
  match fld with
  | none => false
  | some t => if t = "" then false else strContains t sku || strContains t cleanSku

/-- The confirmation override of `validateSkuWithWeb`: when the parsed title
or URL passes the truthiness-guarded containment test for the raw or
hyphen-stripped code, `found` is forced to `true`. -/
def applyConfirmationOverride (sku : String) (d : CatalogData) : CatalogData :=
  let cleanSku := stripHyphens sku
  let skuInTitle := jsFieldContains d.title sku cleanSku
  let skuInUrl := jsFieldContains d.url sku cleanSku
  if skuInTitle || skuInUrl then { d with found := true } else d

/-- Post-processing of the catalog lookup (`validateSkuWithWeb` after
code-fence stripping): a `JSON.parse` failure (modelled as `parsed = none`)
yields `{ found: false }` with every other field absent; a successful parse
goes through the confirmation override. -/
def validateSkuWithWeb (sku : String) (parsed : Option CatalogData) : CatalogData :=
  match parsed with
  | none => ⟨false, none, none, none, none, none, none, none⟩
  | some d => applyConfirmationOverride sku d

/-! ## Reconciliation engine (`SkuResult.tsx`) -/

/-- `parsePrice` of `ProductCard`: a falsy (`undefined` or empty) price
string is `0`; otherwise all non-numeric, non-dot characters are stripped
and the remainder is given to `parseFloat` (`none` models `NaN`). -/
def parsePrice (priceStr : Option String) : Option ℚ :=
  match priceStr with
  | none => some 0
  | some s => if s = "" then some 0 else parseJsFloat (stripNonNumeric s)

/-- The per-product `isPriceMismatch` flag of `ProductCard`:
`isMatchFound && artPriceVal > 0 && Math.abs(webPriceVal - artPriceVal) > 0.05`,
where every comparison against `NaN` is false. -/
def isPriceMismatch (found : Bool) (price : Option String)
    (priceOnArt : Option ℚ) : Bool :=
  let webPriceVal := parsePrice price
  let artPriceVal := priceOnArt.getD 0
  found && decide (0 < artPriceVal) &&
    (match webPriceVal with
     | none => false
     | some w => decide ((5 : ℚ) / 100 < |w - artPriceVal|))

/-- The filter of `PriceIntegrityAlert`: items with a present visual price
and a found catalog match. -/
def priceItemsFilter (rs : List ProductResultItem) : List ProductResultItem :=
  rs.filter (fun r => r.priceOnArt.isSome && r.details.found)

/-- The web price parsed by `PriceIntegrityAlert`: the price string
defaults to `"0"` when falsy (`item.details.price || "0"`), then is
stripped and given to `parseFloat`. -/
def alertWebPrice (d : CatalogData) : Option ℚ :=
  parseJsFloat (stripNonNumeric (match d.price with
    | none => "0"
    | some s => if s = "" then "0" else s))

/-- The mismatch test of `PriceIntegrityAlert`: the item is a mismatch when
`Math.abs(webPrice - artPrice) > 0.05` (false for `NaN`).  Note: unlike
`ProductCard`, there is no `artPrice > 0` requirement. -/
def alertMismatch (r : ProductResultItem) : Bool :=
  let artPrice := r.priceOnArt.getD 0
  match alertWebPrice r.details with
  | none => false
  | some w => decide ((5 : ℚ) / 100 < |w - artPrice|)

/-- The `mismatches` list of `PriceIntegrityAlert`. -/
def priceMismatchList (rs : List ProductResultItem) : List ProductResultItem :=
  (priceItemsFilter rs).filter alertMismatch

/-! ## Batch queue scheduler (`App.tsx`) -/

/-- `BatchItemStatus` of `types.ts`. -/
inductive BatchItemStatus where
  | PENDING
  | ANALYZING
  | VALIDATING
  | COMPLETED
  | ERROR
deriving DecidableEq

open BatchItemStatus

/-- The error-message mapping of the `catch` block of `processItemAtIndex`. -/
def mapErrorMsg (e : JsError) : String :=
  if e.message = some "API_KEY_MISSING" then "Falta API Key"
  else if (match e.message with
           | some m => strContains m "429" || strContains m "Quota"
           | none => false) || e.status == some 429 then
    "Límite de velocidad (429). Intentando continuar..."
  else
    match e.message with
    | some m => if m = "" then "Error al procesar imagen." else jsSlice m 50
    | none => "Error al procesar imagen."

/-- The fixed zero-detection message of `processItemAtIndex`. -/
def noCodesMsg : String := "No se encontraron códigos SKU visibles."

/-- The per-item pipeline of `processItemAtIndex`, given the outcomes of its
three remote phases: extraction, the catalog-validation loop (only run when
at least one product was detected) and the spelling audit.  Returns the
item's terminal status and its `errorMsg` field.  Any phase error is caught
at the item level and mapped by `mapErrorMsg`; with zero detected products
the validation loop is skipped, the spelling audit still runs, and the item
ends in `ERROR` with the fixed zero-detection message. -/
def processItem (extract : Except JsError (List RawProduct))
    (validate : Except JsError (List ProductResultItem))
    (spelling : Except JsError SpellingAnalysis) :
    BatchItemStatus × Option String :=
  match extract with
  | .error e => (ERROR, some (mapErrorMsg e))
  | .ok ps =>
    if ps.isEmpty then
      match spelling with
      | .error e => (ERROR, some (mapErrorMsg e))
      | .ok _ => (ERROR, some noCodesMsg)
    else
      match validate with
      | .error e => (ERROR, some (mapErrorMsg e))
      | .ok _ =>
        match spelling with
        | .error e => (ERROR, some (mapErrorMsg e))
        | .ok _ => (COMPLETED, none)

/-- The sequence of statuses the item passes through in
`processItemAtIndex`: `ANALYZING` on entry, `VALIDATING` only when the
extraction succeeded with a non-empty product list, then the terminal
status. -/
def pipelineTrace (extract : Except JsError (List RawProduct))
    (validate : Except JsError (List ProductResultItem))
    (spelling : Except JsError SpellingAnalysis) : List BatchItemStatus :=
  match extract with
  | .error _ => [ANALYZING, (processItem extract validate spelling).1]
  | .ok ps =>
    if ps.isEmpty then [ANALYZING, (processItem extract validate spelling).1]
    else [ANALYZING, VALIDATING, (processItem extract validate spelling).1]

/-- One queue entry, reduced to the fields the scheduler inspects. -/
structure QItem where
  id : ℕ
  status : BatchItemStatus
deriving DecidableEq

/-- `updateItemStatus`: map over the queue, replacing the status of every
item with the given id. -/
def setStatus (q : List QItem) (i : ℕ) (st : BatchItemStatus) : List QItem :=
  q.map (fun it => if it.id = i then ⟨it.id, st⟩ else it)

/-- The selection of `processNextItem`:
`queue.findIndex(i => i.status === 'PENDING')`, returned as the item id. -/
def firstPendingId (q : List QItem) : Option ℕ :=
  (q.find? (fun it => decide (it.status = PENDING))).map QItem.id

/-- `cancelAllPending` of `App.tsx`: keep only the items whose status is
`COMPLETED` or `ERROR`. -/
def cancelAllPending (q : List QItem) : List QItem :=
  q.filter (fun it => decide (it.status = COMPLETED) || decide (it.status = ERROR))

/-- Whether a status counts as in flight for the single-worker invariant. -/
def inflight (st : BatchItemStatus) : Bool :=
  decide (st = ANALYZING) || decide (st = VALIDATING)

/-- Number of queue items currently in `ANALYZING` or `VALIDATING`. -/
def countInFlight (q : List QItem) : ℕ :=
  q.countP (fun it => inflight it.status)

/-- Number of queue items currently `PENDING`. -/
def countPending (q : List QItem) : ℕ :=
  q.countP (fun it => decide (it.status = PENDING))

/-- The scheduler state: the queue, the admission lock
(`processingRef`/`isProcessing`, which the code always sets together) and
the ids of the still-running asynchronous `processItemAtIndex` executions. -/
structure SchedState where
  queue : List QItem
  lock : Bool
  workers : List ℕ
deriving DecidableEq

/-- Interleaving semantics of the scheduler.  `force` enables the
`forceProcessQueue` control.  `start` is `processNextItem` dispatching a new
`processItemAtIndex` execution (only when the lock is free, and always on
the first `PENDING` item); `toValidating` is a live execution moving its
item from `ANALYZING` to `VALIDATING`; `finish` is a live execution writing
its terminal status and (after the cooldown) releasing the lock;
`forceResume` is `forceProcessQueue` resetting the lock while any live
executions keep running. -/
inductive Step (force : Bool) : SchedState → SchedState → Prop where
  | start (s : SchedState) (i : ℕ)
      (hl : s.lock = false) (hp : firstPendingId s.queue = some i) :
      Step force s ⟨setStatus s.queue i ANALYZING, true, i :: s.workers⟩
  | toValidating (s : SchedState) (i : ℕ)
      (hw : i ∈ s.workers) :
      Step force s ⟨setStatus s.queue i VALIDATING, s.lock, s.workers⟩
  | finish (s : SchedState) (i : ℕ) (st : BatchItemStatus)
      (hw : i ∈ s.workers) (hst : st = COMPLETED ∨ st = ERROR) :
      Step force s ⟨setStatus s.queue i st, false, s.workers.erase i⟩
  | forceResume (s : SchedState) (hf : force = true) :
      Step force s ⟨s.queue, false, s.workers⟩

/-- Reachability by scheduler steps. -/
def Reachable (force : Bool) : SchedState → SchedState → Prop :=
  Relation.ReflTransGen (Step force)

/-- An initial scheduler state: lock free, no live execution, no item in
flight, and queue ids pairwise distinct. -/
def InitState (s : SchedState) : Prop :=
  s.lock = false ∧ s.workers = [] ∧ (s.queue.map QItem.id).Nodup ∧
    ∀ it ∈ s.queue, inflight it.status = false

/-- The deterministic scheduler loop with an instantly finishing pipeline:
repeatedly take the first `PENDING` item, give it its terminal status
(`COMPLETED` when `f` holds of its id, `ERROR` otherwise), and record the
processing order.  The fuel argument bounds the number of rounds. -/
def runQueueAux (f : ℕ → Bool) : ℕ → List QItem → List QItem × List ℕ
  | 0, q => (q, [])
  | n + 1, q =>
    match firstPendingId q with
    | none => (q, [])
    | some i =>
      let q' := setStatus q i (if f i then COMPLETED else ERROR)
      let r := runQueueAux f n q'
      (r.1, i :: r.2)

/-- The scheduler loop run to completion. -/
def runQueue (f : ℕ → Bool) (q : List QItem) : List QItem × List ℕ :=
  runQueueAux f (countPending q) q

/-! ## Lemmas about the retry engine -/

lemma runFrom_zero {α : Type} (op : ℕ → Except JsError α) (i : ℕ)
    (last : Option JsError) :
    runWithRetryFrom op i 0 last = (.failed last, []) := rfl

lemma runFrom_succ {α : Type} (op : ℕ → Except JsError α) (i n : ℕ)
    (last : Option JsError) :
    runWithRetryFrom op i (n + 1) last =
      match op i with
      | .ok a => (.ok a, [])
      | .error e =>
        ((runWithRetryFrom op (i + 1) n (some e)).1,
          retryDelay e i :: (runWithRetryFrom op (i + 1) n (some e)).2) := rfl

lemma runFrom_congr {α : Type} (op op' : ℕ → Except JsError α) :
    ∀ (n i : ℕ) (last : Option JsError),
      (∀ k, i ≤ k → k < i + n → op k = op' k) →
      runWithRetryFrom op i n last = runWithRetryFrom op' i n last := by
  intro n
  induction n with
  | zero => intro i last _; rfl
  | succ n ih =>
    intro i last h
    have h0 : op i = op' i := h i le_rfl (by omega)
    rw [runFrom_succ, runFrom_succ, h0]
    cases hop : op' i with
    | ok a => rfl
    | error e =>
      dsimp only
      rw [ih (i + 1) (some e) (fun k hk1 hk2 => h k (by omega) (by omega))]

lemma runFrom_ok {α : Type} (op : ℕ → Except JsError α) (a : α) :
    ∀ (k n i : ℕ) (last : Option JsError),
      k < n →
      (∀ j, j < k → ∃ e, op (i + j) = .error e) →
      op (i + k) = .ok a →
      (runWithRetryFrom op i n last).1 = .ok a ∧
        (runWithRetryFrom op i n last).2.length = k := by
  intro k
  induction k with
  | zero =>
    intro n i last hn _ hok
    obtain ⟨m, rfl⟩ : ∃ m, n = m + 1 := ⟨n - 1, by omega⟩
    rw [Nat.add_zero] at hok
    rw [runFrom_succ, hok]
    exact ⟨rfl, rfl⟩
  | succ k ih =>
    intro n i last hn hfail hok
    obtain ⟨m, rfl⟩ : ∃ m, n = m + 1 := ⟨n - 1, by omega⟩
    obtain ⟨e, he⟩ := hfail 0 (by omega)
    rw [Nat.add_zero] at he
    have hrec := ih m (i + 1) (some e) (by omega)
      (fun j hj => by
        obtain ⟨e', he'⟩ := hfail (j + 1) (by omega)
        exact ⟨e', by rw [show i + 1 + j = i + (j + 1) from by omega]; exact he'⟩)
      (by rw [show i + 1 + k = i + (k + 1) from by omega]; exact hok)
    rw [runFrom_succ, he]
    dsimp only
    exact ⟨hrec.1, by simp only [List.length_cons, hrec.2]⟩

lemma range_map_cons {β : Type} (g : ℕ → β) (n : ℕ) :
    g 0 :: (List.range n).map (fun j => g (j + 1)) = (List.range (n + 1)).map g := by
  rw [List.range_succ_eq_map, List.map_cons, List.map_map]
  rfl

lemma runFrom_fail {α : Type} (op : ℕ → Except JsError α) (err : ℕ → JsError) :
    ∀ (n i : ℕ) (last : Option JsError),
      1 ≤ n →
      (∀ j, j < n → op (i + j) = .error (err (i + j))) →
      runWithRetryFrom op i n last =
        (.failed (some (err (i + n - 1))),
          (List.range n).map (fun j => retryDelay (err (i + j)) (i + j))) := by
  intro n
  induction n with
  | zero => intro i last h; omega
  | succ n ih =>
    intro i last _ hfail
    have he : op i = .error (err i) := by
      have := hfail 0 (by omega); rwa [Nat.add_zero] at this
    cases n with
    | zero =>
      rw [runFrom_succ, he]
      rfl
    | succ m =>
      have hih := ih (i + 1) (some (err i)) (by omega)
        (fun j hj => by
          rw [show i + 1 + j = i + (j + 1) from by omega]
          exact hfail (j + 1) (by omega))
      rw [runFrom_succ, he]
      dsimp only
      rw [hih]
      have hmap : (List.range (m + 1)).map
            (fun j => retryDelay (err (i + 1 + j)) (i + 1 + j))
          = (List.range (m + 1)).map
            (fun j => retryDelay (err (i + (j + 1))) (i + (j + 1))) := by
        apply List.map_congr_left
        intro j _
        have h1 : i + 1 + j = i + (j + 1) := by omega
        rw [h1]
      refine Prod.ext ?_ ?_
      · dsimp only
        have hx : i + 1 + (m + 1) - 1 = i + (m + 1 + 1) - 1 := by omega
        rw [hx]
      · dsimp only
        rw [hmap]
        exact range_map_cons (fun j => retryDelay (err (i + j)) (i + j)) (m + 1)

lemma runWithRetry_const_fail {α : Type} (e : JsError) (n : ℕ) (hn : 1 ≤ n) :
    runWithRetry (fun _ => (.error e : Except JsError α)) n =
      (.failed (some e), (List.range n).map (fun j => retryDelay e j)) := by
  unfold runWithRetry
  rw [runFrom_fail (fun _ => (.error e : Except JsError α)) (fun _ => e) n 0 none hn
    (fun j _ => rfl)]
  simp

lemma retryDelay_flat {e : JsError} (h1 : isRateLimit e = false)
    (h2 : isOverloaded e = false) (i : ℕ) : retryDelay e i = 1000 := by
  simp [retryDelay, h1, h2]

/-! ## Lemmas about the scheduler -/

lemma setStatus_map_id (q : List QItem) (i : ℕ) (st : BatchItemStatus) :
    (setStatus q i st).map QItem.id = q.map QItem.id := by
  induction q with
  | nil => rfl
  | cons a q ih =>
    simp only [setStatus, List.map_cons] at ih ⊢
    by_cases h : a.id = i
    · rw [if_pos h, ih]
    · rw [if_neg h, ih]

lemma setStatus_of_not_mem {q : List QItem} {i : ℕ} (st : BatchItemStatus)
    (h : i ∉ q.map QItem.id) : setStatus q i st = q := by
  induction q with
  | nil => rfl
  | cons a q ih =>
    simp only [List.map_cons, List.mem_cons, not_or] at h
    simp only [setStatus, List.map_cons] at ih ⊢
    rw [if_neg (fun hh => h.1 hh.symm), ih h.2]

lemma setStatus_append (q₁ q₂ : List QItem) (i : ℕ) (st : BatchItemStatus) :
    setStatus (q₁ ++ q₂) i st = setStatus q₁ i st ++ setStatus q₂ i st := by
  simp [setStatus]

lemma mem_setStatus {q : List QItem} {i : ℕ} {st : BatchItemStatus} {it : QItem}
    (h : it ∈ setStatus q i st) :
    ∃ it0 ∈ q, it = if it0.id = i then ⟨it0.id, st⟩ else it0 := by
  simp only [setStatus, List.mem_map] at h
  obtain ⟨it0, h0, he⟩ := h
  exact ⟨it0, h0, he.symm⟩

/-- The inductive invariant of the scheduler without the force-resume
control: at most one live execution, none when the lock is free, every
in-flight item is owned by a live execution, and queue ids are distinct. -/
def Inv (s : SchedState) : Prop :=
  s.workers.length ≤ 1 ∧
    (s.lock = false → s.workers = []) ∧
    (∀ it ∈ s.queue, inflight it.status = true → it.id ∈ s.workers) ∧
    (s.queue.map QItem.id).Nodup

lemma countInFlight_le_workers (q : List QItem) :
    ∀ ws : List ℕ, (q.map QItem.id).Nodup →
      (∀ it ∈ q, inflight it.status = true → it.id ∈ ws) →
      countInFlight q ≤ ws.length := by
  induction q with
  | nil => intro ws _ _; simp [countInFlight]
  | cons a q ih =>
    intro ws hnd h
    simp only [List.map_cons, List.nodup_cons] at hnd
    rw [countInFlight, List.countP_cons]
    by_cases ha : inflight a.status = true
    · have haw : a.id ∈ ws := h a (List.mem_cons_self _ _) ha
      have hlen : (ws.erase a.id).length = ws.length - 1 :=
        List.length_erase_of_mem haw
      have hws : 1 ≤ ws.length := List.length_pos.mpr (fun hh => by simp [hh] at haw)
      have hq : countInFlight q ≤ (ws.erase a.id).length := by
        apply ih (ws.erase a.id) hnd.2
        intro it hit hin
        have hmem : it.id ∈ ws := h it (List.mem_cons_of_mem _ hit) hin
        have hne : it.id ≠ a.id := fun hh => hnd.1 (hh ▸ List.mem_map_of_mem QItem.id hit)
        exact (List.mem_erase_of_ne hne).mpr hmem
      rw [countInFlight] at hq
      rw [if_pos ha]
      omega
    · have hq : countInFlight q ≤ ws.length := by
        apply ih ws hnd.2
        intro it hit hin
        exact h it (List.mem_cons_of_mem _ hit) hin
      rw [countInFlight] at hq
      rw [if_neg ha]
      omega

lemma workers_singleton {ws : List ℕ} {i : ℕ} (h1 : ws.length ≤ 1)
    (hm : i ∈ ws) : ws = [i] := by
  match ws with
  | [] => cases hm
  | [a] =>
    rw [List.mem_singleton] at hm
    rw [hm]
  | a :: b :: t => simp at h1

lemma inflight_terminal {st : BatchItemStatus}
    (h : st = BatchItemStatus.COMPLETED ∨ st = BatchItemStatus.ERROR) :
    inflight st = false := by
  cases h with
  | inl h => rw [h]; rfl
  | inr h => rw [h]; rfl

lemma inv_step {s s' : SchedState} (h : Step false s s') (hi : Inv s) : Inv s' := by
  obtain ⟨h1, h2, h3, h4⟩ := hi
  cases h with
  | start i hl hp =>
    have hw : s.workers = [] := h2 hl
    refine ⟨by simp [hw], by simp, ?_, by rw [setStatus_map_id]; exact h4⟩
    intro it hit hin
    obtain ⟨it0, h0, he⟩ := mem_setStatus hit
    by_cases hid : it0.id = i
    · subst he
      simp [hid]
    · subst he
      rw [if_neg hid] at hin
      have := h3 it0 h0 hin
      rw [hw] at this
      cases this
  | toValidating i hw =>
    refine ⟨h1, h2, ?_, by rw [setStatus_map_id]; exact h4⟩
    intro it hit hin
    obtain ⟨it0, h0, he⟩ := mem_setStatus hit
    by_cases hid : it0.id = i
    · subst he
      simp only [if_pos hid]
      exact hid ▸ hw
    · subst he
      rw [if_neg hid] at hin ⊢
      exact h3 it0 h0 hin
  | finish i st hwm hst =>
    refine ⟨le_trans (List.Sublist.length_le (List.erase_sublist _ _)) h1,
      ?_, ?_, by rw [setStatus_map_id]; exact h4⟩
    · intro _
      rw [workers_singleton h1 hwm]
      simp
    · intro it hit hin
      obtain ⟨it0, h0, he⟩ := mem_setStatus hit
      by_cases hid : it0.id = i
      · subst he
        rw [if_pos hid] at hin
        rw [inflight_terminal hst] at hin
        cases hin
      · subst he
        rw [if_neg hid] at hin ⊢
        exact (List.mem_erase_of_ne hid).mpr (h3 it0 h0 hin)
  | forceResume hf => cases hf

lemma inv_reachable {s0 s : SchedState} (h0 : Inv s0)
    (h : Reachable false s0 s) : Inv s := by
  induction h with
  | refl => exact h0
  | tail _ hstep ih => exact inv_step hstep ih

lemma initState_inv {s : SchedState} (h : InitState s) : Inv s := by
  obtain ⟨hl, hw, hnd, hin⟩ := h
  refine ⟨by simp [hw], fun _ => hw, ?_, hnd⟩
  intro it hit hinf
  rw [hin it hit] at hinf
  cases hinf

lemma find?_append_of_forall_false {p : QItem → Bool} {l₁ : List QItem}
    (l₂ : List QItem) (h : ∀ a ∈ l₁, p a = false) :
    (l₁ ++ l₂).find? p = l₂.find? p := by
  induction l₁ with
  | nil => rfl
  | cons a l ih =>
    rw [List.cons_append, List.find?_cons_of_neg _ (by simp [h a (List.mem_cons_self _ _)])]
    exact ih (fun b hb => h b (List.mem_cons_of_mem _ hb))

lemma runQueueAux_spec (f : ℕ → Bool) (rest : List QItem) :
    ∀ done : List QItem,
      (∀ it ∈ done, decide (it.status = BatchItemStatus.PENDING) = false) →
      (∀ it ∈ rest, it.status = BatchItemStatus.PENDING) →
      ((done ++ rest).map QItem.id).Nodup →
      runQueueAux f rest.length (done ++ rest) =
        (done ++ rest.map (fun it =>
            ⟨it.id, if f it.id then BatchItemStatus.COMPLETED else BatchItemStatus.ERROR⟩),
          rest.map QItem.id) := by
  induction rest with
  | nil => intro done _ _ _; simp [runQueueAux]
  | cons r rest ih =>
    intro done hd hr hnd
    have hrp : r.status = BatchItemStatus.PENDING := hr r (List.mem_cons_self _ _)
    have hfind : firstPendingId (done ++ r :: rest) = some r.id := by
      unfold firstPendingId
      rw [find?_append_of_forall_false _ hd,
        List.find?_cons_of_pos _ (by simp [hrp])]
      rfl
    have hnd' := hnd
    rw [List.map_append, List.map_cons, List.nodup_append] at hnd'
    obtain ⟨hnd1, hnd2, hdisj⟩ := hnd'
    rw [List.nodup_cons] at hnd2
    have hid_done : r.id ∉ done.map QItem.id := fun hh =>
      hdisj hh (List.mem_cons_self _ _)
    have hid_rest : r.id ∉ rest.map QItem.id := hnd2.1
    have hset : setStatus (done ++ r :: rest) r.id
          (if f r.id then BatchItemStatus.COMPLETED else BatchItemStatus.ERROR)
        = done ++ ⟨r.id, if f r.id then BatchItemStatus.COMPLETED else BatchItemStatus.ERROR⟩ :: rest := by
      rw [setStatus_append, setStatus_of_not_mem _ hid_done]
      congr 1
      show List.map _ _ = _
      rw [List.map_cons]
      congr 1
      · rw [if_pos rfl]
      · exact setStatus_of_not_mem _ hid_rest
    simp only [List.length_cons, runQueueAux, hfind, hset]
    have hih := ih (done ++ [⟨r.id, if f r.id then BatchItemStatus.COMPLETED else BatchItemStatus.ERROR⟩])
      (by
        intro it hit
        rw [List.mem_append] at hit
        cases hit with
        | inl hh => exact hd it hh
        | inr hh =>
          rw [List.mem_singleton] at hh
          subst hh
          by_cases hf : f r.id <;> simp [hf])
      (fun it hit => hr it (List.mem_cons_of_mem _ hit))
      (by
        rw [List.append_assoc, List.singleton_append, List.map_append, List.map_cons]
        rw [List.map_append, List.map_cons] at hnd
        exact hnd)
    rw [List.append_assoc, List.singleton_append] at hih
    rw [hih]
    simp [List.append_assoc]

lemma countPending_all (q : List QItem)
    (h : ∀ it ∈ q, it.status = BatchItemStatus.PENDING) :
    countPending q = q.length := by
  unfold countPending
  rw [List.countP_eq_length]
  intro a ha
  simp [h a ha]

lemma runQueue_all_pending (f : ℕ → Bool) (q : List QItem)
    (h : ∀ it ∈ q, it.status = BatchItemStatus.PENDING)
    (hnd : (q.map QItem.id).Nodup) :
    runQueue f q =
      (q.map (fun it =>
          ⟨it.id, if f it.id then BatchItemStatus.COMPLETED else BatchItemStatus.ERROR⟩),
        q.map QItem.id) := by
  unfold runQueue
  rw [countPending_all q h]
  have := runQueueAux_spec f q [] (by intro it hit; cases hit) h (by simpa using hnd)
  simpa using this

/-! ## Lemmas about extraction deduplication -/

lemma dedup_sku_spec : ∀ (ps : List RawProduct) (seen : List String),
    (∀ c ∈ (dedupBySku ps seen).map RawProduct.sku, c ∉ seen) ∧
      ((dedupBySku ps seen).map RawProduct.sku).Nodup := by
  intro ps
  induction ps with
  | nil => intro seen; simp [dedupBySku]
  | cons p ps ih =>
    intro seen
    rw [dedupBySku]
    by_cases hm : jsTrim p.sku ∈ seen
    · rw [if_pos hm]
      exact ih seen
    · rw [if_neg hm]
      constructor
      · intro c hc
        rw [List.map_cons, List.mem_cons] at hc
        cases hc with
        | inl hh => rw [hh]; exact hm
        | inr hh =>
          intro hseen
          exact (ih (jsTrim p.sku :: seen)).1 c hh (List.mem_cons_of_mem _ hseen)
      · rw [List.map_cons, List.nodup_cons]
        refine ⟨?_, (ih (jsTrim p.sku :: seen)).2⟩
        intro hh
        exact (ih (jsTrim p.sku :: seen)).1 _ hh (List.mem_cons_self _ _)

/-! ## Claim C3 -/

/-- C3: the retry wrapper `runWithRetry` invokes the operation at most
`maxAttempts` times (its outcome only depends on the first `maxAttempts`
attempt outcomes) and returns the first successful result; the wait after
the failed attempt with 0-based loop index `i` is `2000 * (i + 1)` ms for a
pure rate-limit failure, `4000 * (i + 1)` ms for an overload failure, and a
flat `1000` ms otherwise; after all attempts fail the last error is
re-raised; and a stub failing twice with a 429-tagged error then succeeding
returns the success value after strictly increasing delays
`[2000, 4000]`. -/
theorem C3_retry_policy (α : Type) :
    (∀ (op op' : ℕ → Except JsError α) (n : ℕ),
        (∀ k, k < n → op k = op' k) → runWithRetry op n = runWithRetry op' n) ∧
    (∀ (op : ℕ → Except JsError α) (n k : ℕ) (a : α),
        k < n → (∀ j, j < k → ∃ e, op j = .error e) → op k = .ok a →
        (runWithRetry op n).1 = .ok a) ∧
    (∀ (e : JsError) (i : ℕ),
        (isRateLimit e = true → isOverloaded e = false →
          retryDelay e i = 2000 * (i + 1)) ∧
        (isOverloaded e = true → retryDelay e i = 4000 * (i + 1)) ∧
        (isRateLimit e = false → isOverloaded e = false → retryDelay e i = 1000)) ∧
    (∀ (op : ℕ → Except JsError α) (err : ℕ → JsError) (n : ℕ),
        1 ≤ n → (∀ j, j < n → op j = .error (err j)) →
        (runWithRetry op n).1 = .failed (some (err (n - 1)))) ∧
    (runWithRetry
        (fun i => if i < 2 then .error ⟨some 429, some "Rate limit 429"⟩ else .ok 7) 3
        = (.ok (7 : ℕ), [2000, 4000]) ∧ 2000 < 4000) := by
  refine ⟨?_, ?_, ?_, ?_, by constructor <;> decide⟩
  · intro op op' n h
    exact runFrom_congr op op' n 0 none (fun k hk1 hk2 => h k (by omega))
  · intro op n k a hk hfail hok
    exact (runFrom_ok op a k n 0 none hk
      (fun j hj => by rw [Nat.zero_add]; exact hfail j hj)
      (by rw [Nat.zero_add]; exact hok)).1
  · intro e i
    refine ⟨fun h1 h2 => ?_, fun h2 => ?_, fun h1 h2 => ?_⟩
    · simp [retryDelay, h1, h2]
    · simp [retryDelay, h2]
    · simp [retryDelay, h1, h2]
  · intro op err n hn hfail
    have := runFrom_fail op err n 0 none hn
      (fun j hj => by rw [Nat.zero_add]; exact hfail j hj)
    unfold runWithRetry
    rw [this]
    simp only [Nat.zero_add]

/-- C3 witness: the theorem applied to the concrete 429-then-success stub. -/
theorem C3_witness :
    (runWithRetry
        (fun i => if i < 2 then .error ⟨some 429, some "Rate limit 429"⟩ else .ok (7 : ℕ)) 3).1
      = .ok 7 ∧
    retryDelay ⟨some 429, some "Rate limit 429"⟩ 0 = 2000 * (0 + 1) := by
  constructor
  · exact (C3_retry_policy ℕ).2.1 _ 3 2 7 (by norm_num)
      (by
        intro j hj
        interval_cases j <;> exact ⟨⟨some 429, some "Rate limit 429"⟩, rfl⟩) rfl
  · exact ((C3_retry_policy ℕ).2.2.1 ⟨some 429, some "Rate limit 429"⟩ 0).1
      (by decide) (by decide)

/-! ## Claim C6 -/

/-- The distinguished credential error thrown by `getAiClient`. -/
def apiKeyErr : JsError := ⟨none, some "API_KEY_MISSING"⟩

/-- A pipeline operation as wrapped by `runWithRetry` in the retry-enabled
service revision: `getAiClient` is called inside the operation, so its
`API_KEY_MISSING` error is raised on every attempt. -/
def keyMissingOp : ℕ → Except JsError ℕ := fun _ =>
  match getAiClient none none with
  | .error e => .error e
  | .ok _ => .ok 0

/-- C6 counterexample: with both keys absent, the pipeline operation under
`runWithRetry` is attempted 3 times with three flat 1-second waits before
the error is re-raised — the `ApiKeyMissing` condition enters the retry loop
and is retried, contrary to the claim that it is never retried. -/
theorem C6_counterexample :
    runWithRetry keyMissingOp 3 = (.failed (some apiKeyErr), [1000, 1000, 1000]) ∧
    (runWithRetry keyMissingOp 3).2.length = 3 := by
  constructor <;> decide

/-- C6 (amended): with neither the environment key nor the stored key
present, every pipeline call raises the distinguished `API_KEY_MISSING`
error; the condition is retried like any generic error — `runWithRetry`
attempts the operation the full `maxAttempts` times with flat 1-second
delays and only then re-raises it — and the caller distinguishes it from a
generic error, mapping it to the dedicated credential message. -/
theorem C6_api_key_amended :
    getAiClient none none = .error ⟨none, some "API_KEY_MISSING"⟩ ∧
    (∀ n : ℕ, 1 ≤ n →
        runWithRetry keyMissingOp n = (.failed (some apiKeyErr), List.replicate n 1000)) ∧
    (∀ e : JsError, e.message = some "API_KEY_MISSING" → mapErrorMsg e = "Falta API Key") ∧
    (mapErrorMsg ⟨none, none⟩ = "Error al procesar imagen." ∧
      "Falta API Key" ≠ "Error al procesar imagen.") := by
  refine ⟨rfl, ?_, ?_, by constructor <;> decide⟩
  · intro n hn
    have hop : keyMissingOp = fun _ => (.error apiKeyErr : Except JsError ℕ) := by
      funext k
      rfl
    rw [hop, runWithRetry_const_fail apiKeyErr n hn]
    congr 1
    rw [List.eq_replicate_iff]
    refine ⟨by simp, ?_⟩
    intro b hb
    rw [List.mem_map] at hb
    obtain ⟨j, _, rfl⟩ := hb
    exact retryDelay_flat (by decide) (by decide) j
  · intro e he
    unfold mapErrorMsg
    rw [if_pos he]

/-- C6 witness: the amended theorem applied at 2 attempts and at the
concrete credential error. -/
theorem C6_witness :
    runWithRetry keyMissingOp 2 = (.failed (some apiKeyErr), [1000, 1000]) ∧
    mapErrorMsg apiKeyErr = "Falta API Key" := by
  constructor
  · exact C6_api_key_amended.2.1 2 (by norm_num)
  · exact C6_api_key_amended.2.2.1 apiKeyErr rfl

/-! ## Claim C8 -/

/-- A `JSON.parse` oracle that always fails, modelling the JavaScript
builtin applied to a malformed body. -/
def badParse : String → Except JsError SpellingAnalysis :=
  fun _ => .error ⟨none, some "Unexpected token"⟩

/-- C8 counterexample: in the retry-wrapped service revision, a spelling
response whose JSON fails to parse is retried twice and then the parse
error is re-raised — the result is a propagated failure, not the neutral
value the claim requires. -/
theorem C8_counterexample :
    checkSpellingInImageRetry (fun _ => some "not json") badParse
      = (.failed (some ⟨none, some "Unexpected token"⟩), [1000, 1000]) ∧
    (.failed (some ⟨none, some "Unexpected token"⟩) : RetryResult SpellingAnalysis)
      ≠ .ok neutralSpelling := by
  constructor <;> decide

/-- C8 (amended): the plain service clients return the neutral value on an
empty response and on any parse failure; the retry-wrapped client returns
the neutral value on an empty response, but a parse failure there is
retried (2 attempts, flat 1-second waits) and then propagated, and a
propagated spelling error makes the item end in `ERROR`. -/
theorem C8_spelling_amended :
    (∀ parse, checkSpellingInImagePlain none parse = neutralSpelling) ∧
    (∀ (t : String) (parse : String → Except JsError SpellingAnalysis) (e : JsError),
        parse t = .error e → checkSpellingInImagePlain (some t) parse = neutralSpelling) ∧
    (∀ parse, checkSpellingInImageRetry (fun _ => none) parse = (.ok neutralSpelling, [])) ∧
    (∀ (t : String) (parse : String → Except JsError SpellingAnalysis) (e : JsError),
        t ≠ "" → parse t = .error e → isRateLimit e = false → isOverloaded e = false →
        checkSpellingInImageRetry (fun _ => some t) parse = (.failed (some e), [1000, 1000])) ∧
    (∀ (ps : List RawProduct) (v : List ProductResultItem) (e : JsError),
        ps ≠ [] →
        processItem (.ok ps) (.ok v) (.error e)
          = (BatchItemStatus.ERROR, some (mapErrorMsg e))) := by
  refine ⟨fun parse => rfl, ?_, fun parse => rfl, ?_, ?_⟩
  · intro t parse e he
    unfold checkSpellingInImagePlain
    dsimp only
    by_cases ht : t = ""
    · rw [if_pos ht]
    · rw [if_neg ht, he]
  · intro t parse e ht he h1 h2
    have hstep : checkSpellingInImageRetry (fun _ => some t) parse
        = runWithRetry (fun _ => (.error e : Except JsError SpellingAnalysis)) 2 := by
      unfold checkSpellingInImageRetry
      congr 1
      funext k
      show (if t = "" then (.ok neutralSpelling : Except JsError SpellingAnalysis)
            else parse t) = .error e
      rw [if_neg ht, he]
    rw [hstep, runWithRetry_const_fail e 2 (by norm_num)]
    congr 1
    rw [show List.range 2 = [0, 1] from rfl]
    simp [retryDelay_flat h1 h2]
  · intro ps v e hps
    cases ps with
    | nil => cases hps rfl
    | cons a l => rfl

/-- C8 witness: the amended theorem applied to a concrete malformed body
and the always-failing parse oracle. -/
theorem C8_witness :
    checkSpellingInImagePlain (some "not json") badParse = neutralSpelling ∧
    checkSpellingInImageRetry (fun _ => some "oops") badParse
      = (.failed (some ⟨none, some "Unexpected token"⟩), [1000, 1000]) := by
  constructor
  · exact C8_spelling_amended.2.1 "not json" badParse _ rfl
  · exact C8_spelling_amended.2.2.2.1 "oops" badParse ⟨none, some "Unexpected token"⟩
      (by decide) rfl (by decide) (by decide)

/-! ## Claim C1 -/

/-- Initial state of the force-resume counterexample trace: two pending
items, lock free, no live execution. -/
def cexS0 : SchedState := ⟨[⟨0, PENDING⟩, ⟨1, PENDING⟩], false, []⟩

/-- Final state of the force-resume counterexample trace: both items are
simultaneously `ANALYZING`, with two live executions. -/
def cexS3 : SchedState := ⟨[⟨0, ANALYZING⟩, ⟨1, ANALYZING⟩], true, [1, 0]⟩

/-- C1 counterexample: starting from a legitimate initial state, the trace
start item 0, `forceProcessQueue` (which resets the lock while item 0 is
still in flight), start item 1 is reachable in the scheduler semantics with
the force-resume control, and it ends with two items simultaneously in
`ANALYZING` — refuting the claimed single-worker invariant for executions
that use force-resume. -/
theorem C1_counterexample :
    InitState cexS0 ∧ Reachable true cexS0 cexS3 ∧ countInFlight cexS3.queue = 2 := by
  refine ⟨⟨rfl, rfl, by decide, by decide⟩, ?_, by decide⟩
  have h1 : Step true cexS0 ⟨[⟨0, ANALYZING⟩, ⟨1, PENDING⟩], true, [0]⟩ :=
    Step.start cexS0 0 rfl (by decide)
  have h2 : Step true ⟨[⟨0, ANALYZING⟩, ⟨1, PENDING⟩], true, [0]⟩
      ⟨[⟨0, ANALYZING⟩, ⟨1, PENDING⟩], false, [0]⟩ :=
    Step.forceResume _ rfl
  have h3 : Step true ⟨[⟨0, ANALYZING⟩, ⟨1, PENDING⟩], false, [0]⟩ cexS3 :=
    Step.start _ 1 rfl (by decide)
  exact Relation.ReflTransGen.tail
    (Relation.ReflTransGen.tail (Relation.ReflTransGen.tail Relation.ReflTransGen.refl h1) h2) h3

/-- C1 (amended): in every execution that never uses the force-resume
control, at most one item is in `ANALYZING`/`VALIDATING` at any reachable
state; any step that dispatches a new execution (in either semantics) picks
exactly the first `PENDING` item; and the deterministic scheduler loop
processes an all-pending queue strictly in order, so with an
always-succeeding pipeline the items reach `COMPLETED` in the order they
were enqueued.  (With force-resume, the invariant fails: see the
counterexample.) -/
theorem C1_scheduler_fifo_amended :
    (∀ s0 s : SchedState, InitState s0 → Reachable false s0 s →
        countInFlight s.queue ≤ 1) ∧
    (∀ (b : Bool) (s s' : SchedState), Step b s s' →
        s.workers.length < s'.workers.length →
        ∃ i, firstPendingId s.queue = some i ∧
          s'.queue = setStatus s.queue i ANALYZING ∧
          s'.workers = i :: s.workers) ∧
    (∀ (f : ℕ → Bool) (q : List QItem),
        (∀ it ∈ q, it.status = PENDING) → (q.map QItem.id).Nodup →
        (runQueue f q).2 = q.map QItem.id) ∧
    (∀ q : List QItem,
        (∀ it ∈ q, it.status = PENDING) → (q.map QItem.id).Nodup →
        (runQueue (fun _ => true) q).1 = q.map (fun it => ⟨it.id, COMPLETED⟩)) := by
  refine ⟨?_, ?_, ?_, ?_⟩
  · intro s0 s h0 hr
    have hinv := inv_reachable (initState_inv h0) hr
    exact le_trans
      (countInFlight_le_workers s.queue s.workers hinv.2.2.2 hinv.2.2.1) hinv.1
  · intro b s s' hstep hlen
    cases hstep with
    | start i hl hp => exact ⟨i, hp, rfl, rfl⟩
    | toValidating i hw =>
      dsimp only at hlen
      omega
    | finish i st hw hst =>
      have hle : (s.workers.erase i).length ≤ s.workers.length :=
        List.Sublist.length_le (List.erase_sublist _ _)
      dsimp only at hlen
      omega
    | forceResume hf =>
      dsimp only at hlen
      omega
  · intro f q h hnd
    rw [runQueue_all_pending f q h hnd]
  · intro q h hnd
    rw [runQueue_all_pending (fun _ => true) q h hnd]
    simp

/-- C1 witness: the amended theorem applied at the concrete initial state
(trivially reachable) and at a concrete two-item all-pending queue. -/
theorem C1_witness :
    countInFlight cexS0.queue ≤ 1 ∧
    (runQueue (fun _ => true) [⟨5, PENDING⟩, ⟨7, PENDING⟩]).2 = [5, 7] := by
  constructor
  · exact C1_scheduler_fifo_amended.1 cexS0 cexS0
      ⟨rfl, rfl, by decide, by decide⟩ Relation.ReflTransGen.refl
  · exact C1_scheduler_fifo_amended.2.2.1 (fun _ => true) _ (by decide) (by decide)

/-! ## Claim C7 -/

/-- C7: when extraction succeeds with an empty product list and the
spelling client returns a value (the plain spelling clients never throw),
the item goes `ANALYZING` directly to `ERROR` with the fixed zero-detection
message and never enters `VALIDATING`; every item outcome is terminal
(`COMPLETED` or `ERROR`); and the scheduler loop processes every pending
item in order regardless of per-item success or failure, leaving no item
`PENDING` — no single item's failure halts the batch. -/
theorem C7_zero_detection :
    (∀ (v : Except JsError (List ProductResultItem)) (sp : SpellingAnalysis),
        processItem (.ok []) v (.ok sp) = (ERROR, some noCodesMsg) ∧
        pipelineTrace (.ok []) v (.ok sp) = [ANALYZING, ERROR] ∧
        VALIDATING ∉ pipelineTrace (.ok []) v (.ok sp)) ∧
    (∀ (extract : Except JsError (List RawProduct))
        (v : Except JsError (List ProductResultItem))
        (sp : Except JsError SpellingAnalysis),
        (processItem extract v sp).1 = COMPLETED ∨
        (processItem extract v sp).1 = ERROR) ∧
    (∀ (f : ℕ → Bool) (q : List QItem),
        (∀ it ∈ q, it.status = PENDING) → (q.map QItem.id).Nodup →
        countPending (runQueue f q).1 = 0 ∧ (runQueue f q).2 = q.map QItem.id) := by
  refine ⟨?_, ?_, ?_⟩
  · intro v sp
    refine ⟨rfl, rfl, ?_⟩
    rw [show pipelineTrace (.ok []) v (.ok sp) = [ANALYZING, ERROR] from rfl]
    decide
  · intro extract v sp
    rcases extract with e | ps
    · exact Or.inr rfl
    · rcases ps with _ | ⟨a, l⟩
      · rcases sp with e | spv
        · exact Or.inr rfl
        · exact Or.inr rfl
      · rcases v with e | vr
        · exact Or.inr rfl
        · rcases sp with e | spv
          · exact Or.inr rfl
          · exact Or.inl rfl
  · intro f q h hnd
    rw [runQueue_all_pending f q h hnd]
    refine ⟨?_, rfl⟩
    rw [countPending, List.countP_eq_zero]
    intro it hit
    rw [List.mem_map] at hit
    obtain ⟨it0, _, rfl⟩ := hit
    by_cases hf : f it0.id <;> simp [hf]

/-- C7 witness: the theorem applied at the empty extraction with concrete
arguments, and at a concrete queue whose second item fails. -/
theorem C7_witness :
    processItem (.ok []) (.ok []) (.ok neutralSpelling) = (ERROR, some noCodesMsg) ∧
    (runQueue (fun i => i == 0) [⟨0, PENDING⟩, ⟨1, PENDING⟩]).2 = [0, 1] := by
  constructor
  · exact (C7_zero_detection.1 (.ok []) neutralSpelling).1
  · exact (C7_zero_detection.2.2 (fun i => i == 0) _ (by decide) (by decide)).2

/-! ## Claim C9 -/

/-- C9 counterexample: `cancelAllPending` removes an `ANALYZING` item from
the queue, contrary to the claim that only `PENDING` items are removed and
every other item remains. -/
theorem C9_counterexample :
    cancelAllPending [⟨0, ANALYZING⟩] = [] ∧
    (⟨0, ANALYZING⟩ : QItem) ∉ cancelAllPending [⟨0, ANALYZING⟩] := by
  constructor <;> decide

/-- C9 (amended): the cancel-all-pending control keeps exactly the items
whose status is `COMPLETED` or `ERROR`: `PENDING` items are removed without
being attempted, but `ANALYZING` and `VALIDATING` items are removed as
well. -/
theorem C9_cancel_pending_amended :
    ∀ (q : List QItem) (it : QItem),
      (it ∈ cancelAllPending q ↔
        it ∈ q ∧ (it.status = COMPLETED ∨ it.status = ERROR)) ∧
      (it.status = PENDING → it ∉ cancelAllPending q) ∧
      ((it.status = ANALYZING ∨ it.status = VALIDATING) →
        it ∉ cancelAllPending q) := by
  intro q it
  have hmem : it ∈ cancelAllPending q ↔
      it ∈ q ∧ (it.status = COMPLETED ∨ it.status = ERROR) := by
    simp [cancelAllPending, List.mem_filter]
  refine ⟨hmem, ?_, ?_⟩
  · intro hp hc
    rcases (hmem.mp hc).2 with h | h <;> rw [hp] at h <;> cases h
  · intro hav hc
    rcases (hmem.mp hc).2 with h | h <;> rcases hav with h2 | h2 <;>
      rw [h2] at h <;> cases h

/-- C9 witness: the amended theorem applied at concrete singleton queues. -/
theorem C9_witness :
    ((⟨0, COMPLETED⟩ : QItem) ∈ cancelAllPending [⟨0, COMPLETED⟩]) ∧
    ((⟨1, PENDING⟩ : QItem) ∉ cancelAllPending [⟨1, PENDING⟩]) := by
  constructor
  · exact (C9_cancel_pending_amended [⟨0, COMPLETED⟩] ⟨0, COMPLETED⟩).1.mpr
      ⟨List.mem_singleton_self _, Or.inl rfl⟩
  · exact (C9_cancel_pending_amended [⟨1, PENDING⟩] ⟨1, PENDING⟩).2.1 rfl

/-! ## Claim C2 -/

/-- A reconciled product with a present visual price of `0` and a found
catalog match priced `$12.99`. -/
def zeroArtItem : ProductResultItem :=
  ⟨"SKU-1", some 0, none, false,
    ⟨true, none, some "$12.99", none, none, none, none, none⟩⟩

lemma parseJsFloat_1299 : parseJsFloat "12.99" = some ((1299 : ℚ) / 100) := by
  have h : parseJsFloat "12.99"
      = some (((12 : ℕ) : ℚ) + ((99 : ℕ) : ℚ) / (10 : ℚ) ^ (2 : ℕ)) := rfl
  rw [h]
  norm_num

lemma parsePrice_1299 : parsePrice (some "$12.99") = some ((1299 : ℚ) / 100) := by
  show parseJsFloat (stripNonNumeric "$12.99") = _
  rw [show stripNonNumeric "$12.99" = "12.99" from rfl]
  exact parseJsFloat_1299

lemma alertWebPrice_1299 :
    alertWebPrice ⟨true, none, some "$12.99", none, none, none, none, none⟩
      = some ((1299 : ℚ) / 100) := by
  show parseJsFloat (stripNonNumeric "$12.99") = _
  rw [show stripNonNumeric "$12.99" = "12.99" from rfl]
  exact parseJsFloat_1299

lemma alertMismatch_zeroArt : alertMismatch zeroArtItem = true := by
  unfold alertMismatch
  rw [show alertWebPrice zeroArtItem.details
      = some ((1299 : ℚ) / 100) from alertWebPrice_1299]
  dsimp only
  rw [show zeroArtItem.priceOnArt = some 0 from rfl, Option.getD_some,
    decide_eq_true_eq, sub_zero,
    abs_of_pos (show (0 : ℚ) < 1299 / 100 by norm_num)]
  norm_num

/-- C2 counterexample: the `PriceIntegrityAlert` mismatch list flags a
product whose visual price is present but equal to `0` — the claim requires
the flag only when the visual price is greater than zero, so the iff fails
on this cited flag implementation. -/
theorem C2_counterexample :
    priceMismatchList [zeroArtItem] = [zeroArtItem] ∧
    zeroArtItem.priceOnArt = some 0 ∧ ¬ (0 : ℚ) < 0 := by
  refine ⟨?_, rfl, by norm_num⟩
  have hp : (zeroArtItem.priceOnArt.isSome && zeroArtItem.details.found) = true := rfl
  simp [priceMismatchList, priceItemsFilter, List.filter_singleton, hp,
    alertMismatch_zeroArt]

/-- C2 (amended): the per-product card flag (`ProductCard.isPriceMismatch`)
is set iff the catalog match is found, the visual price is present and
greater than zero, and the parsed catalog price differs from it by more
than 0.05; the aggregate `PriceIntegrityAlert` list instead flags a product
iff the match is found, the visual price is merely present (possibly zero
or negative), and the parsed defaulted web price differs by more than
0.05. -/
theorem C2_price_mismatch_amended :
    (∀ (found : Bool) (price : Option String) (art : Option ℚ),
        isPriceMismatch found price art = true ↔
          found = true ∧ ∃ a, art = some a ∧ 0 < a ∧
            ∃ w, parsePrice price = some w ∧ (5 : ℚ) / 100 < |w - a|) ∧
    (∀ r : ProductResultItem,
        priceMismatchList [r] = [r] ↔
          r.details.found = true ∧ ∃ a, r.priceOnArt = some a ∧
            ∃ w, alertWebPrice r.details = some w ∧ (5 : ℚ) / 100 < |w - a|) := by
  constructor
  · intro found price art
    constructor
    · intro h
      simp only [isPriceMismatch, Bool.and_eq_true, decide_eq_true_eq] at h
      obtain ⟨⟨hf, hpos⟩, hrest⟩ := h
      split at hrest
      · cases hrest
      · rename_i w hw
        rw [decide_eq_true_eq] at hrest
        cases art with
        | none =>
          rw [Option.getD_none] at hpos
          exact absurd hpos (lt_irrefl 0)
        | some a =>
          rw [Option.getD_some] at hpos hrest
          exact ⟨hf, a, rfl, hpos, w, hw, hrest⟩
    · rintro ⟨hf, a, rfl, hpos, w, hw, hdiff⟩
      simp only [isPriceMismatch, hw, Option.getD_some, Bool.and_eq_true,
        decide_eq_true_eq]
      exact ⟨⟨hf, hpos⟩, hdiff⟩
  · intro r
    constructor
    · intro h
      have hr : r ∈ priceMismatchList [r] := by
        rw [h]
        exact List.mem_singleton_self r
      unfold priceMismatchList priceItemsFilter at hr
      rw [List.mem_filter, List.mem_filter] at hr
      obtain ⟨⟨_, hcond⟩, hmis⟩ := hr
      rw [Bool.and_eq_true] at hcond
      obtain ⟨a, ha⟩ := Option.isSome_iff_exists.mp hcond.1
      unfold alertMismatch at hmis
      split at hmis
      · cases hmis
      · rename_i w hw
        rw [decide_eq_true_eq, ha, Option.getD_some] at hmis
        exact ⟨hcond.2, a, ha, w, hw, hmis⟩
    · rintro ⟨hf, a, ha, w, hw, hdiff⟩
      have hp : (r.priceOnArt.isSome && r.details.found) = true := by
        rw [Bool.and_eq_true]
        exact ⟨by rw [ha]; rfl, hf⟩
      have hq : alertMismatch r = true := by
        unfold alertMismatch
        rw [hw]
        dsimp only
        rw [ha, Option.getD_some, decide_eq_true_eq]
        exact hdiff
      unfold priceMismatchList priceItemsFilter
      simp [List.filter_singleton, hp, hq]

/-- C2 witness: the amended theorem applied at concrete values — the card
flag fires for catalog `$12.99` against visual price `10`, and the alert
list flags the zero-visual-price item. -/
theorem C2_witness :
    isPriceMismatch true (some "$12.99") (some 10) = true ∧
    priceMismatchList [zeroArtItem] = [zeroArtItem] := by
  constructor
  · exact (C2_price_mismatch_amended.1 true (some "$12.99") (some 10)).mpr
      ⟨rfl, 10, rfl, by norm_num, 1299 / 100, parsePrice_1299, by
        rw [abs_of_pos (show (0 : ℚ) < 1299 / 100 - 10 by norm_num)]
        norm_num⟩
  · exact (C2_price_mismatch_amended.2 zeroArtItem).mpr
      ⟨rfl, 0, rfl, 1299 / 100, alertWebPrice_1299, by
        rw [sub_zero, abs_of_pos (show (0 : ℚ) < 1299 / 100 by norm_num)]
        norm_num⟩

/-! ## Claim C4 -/

/-- C4 counterexample: for the empty queried code and a provider response
with `found:false` and an empty title, the title does contain the queried
code (every string contains the empty string), yet the JavaScript
truthiness guard `data.title && ...` skips the empty title, so `found`
stays `false` — refuting the claim as stated. -/
theorem C4_counterexample :
    strContains "" "" = true ∧
    (validateSkuWithWeb "" (some ⟨false, some "", none, none, none, none, none, none⟩)).found
      = false := by
  constructor <;> decide

/-- C4 (amended): if the parsed title or the parsed URL is a *nonempty*
string containing the queried code raw or hyphen-stripped, the returned
match has `found = true` regardless of the provider's own `found` value; in
particular the stub response `found:false, title:"Contains CODE123"` for
query `CODE123` yields `found = true`. -/
theorem C4_confirmation_override_amended :
    (∀ (sku : String) (d : CatalogData),
        ((∃ t, d.title = some t ∧ t ≠ "" ∧
            (strContains t sku = true ∨ strContains t (stripHyphens sku) = true)) ∨
         (∃ u, d.url = some u ∧ u ≠ "" ∧
            (strContains u sku = true ∨ strContains u (stripHyphens sku) = true))) →
        (validateSkuWithWeb sku (some d)).found = true) ∧
    (validateSkuWithWeb "CODE123"
        (some ⟨false, some "Contains CODE123", none, none, none, none, none, none⟩)).found
      = true := by
  refine ⟨?_, by decide⟩
  intro sku d h
  have hcond : (jsFieldContains d.title sku (stripHyphens sku)
      || jsFieldContains d.url sku (stripHyphens sku)) = true := by
    rcases h with ⟨t, ht, htn, hc⟩ | ⟨u, hu, hun, hc⟩
    · have h1 : jsFieldContains d.title sku (stripHyphens sku) = true := by
        unfold jsFieldContains
        rw [ht]
        dsimp only
        rw [if_neg htn, Bool.or_eq_true]
        exact hc
      rw [h1, Bool.true_or]
    · have h2 : jsFieldContains d.url sku (stripHyphens sku) = true := by
        unfold jsFieldContains
        rw [hu]
        dsimp only
        rw [if_neg hun, Bool.or_eq_true]
        exact hc
      rw [h2, Bool.or_true]
  show (applyConfirmationOverride sku d).found = true
  unfold applyConfirmationOverride
  dsimp only
  rw [hcond]
  rfl

/-- C4 witness: the amended theorem applied at the concrete stub with a
nonempty containing title. -/
theorem C4_witness :
    (validateSkuWithWeb "CODE123"
        (some ⟨false, some "Contains CODE123", none, some "u", none, none, none, none⟩)).found
      = true := by
  exact C4_confirmation_override_amended.1 "CODE123"
    ⟨false, some "Contains CODE123", none, some "u", none, none, none, none⟩
    (Or.inl ⟨"Contains CODE123", rfl, by decide, Or.inl (by decide)⟩)

/-! ## Claim C5 -/

/-- C5 counterexample: deduplication is case-sensitive on trimmed codes, so
the provider stub `["A-1", "a-1 ", "A-1"]` keeps *two* codes — `A-1` and
`a-1` — not the single code the claim asserts. -/
theorem C5_counterexample :
    dedupBySku [⟨"A-1", some 1, none⟩, ⟨"a-1 ", some 2, none⟩, ⟨"A-1", some 3, none⟩] []
      = [⟨"A-1", some 1, none⟩, ⟨"a-1", some 2, none⟩] ∧
    (dedupBySku [⟨"A-1", some 1, none⟩, ⟨"a-1 ", some 2, none⟩, ⟨"A-1", some 3, none⟩] []).map
        RawProduct.sku ≠ ["A-1"] := by
  constructor <;> decide

/-- C5 (amended): extraction fails on a missing or empty provider body;
otherwise it returns the parsed product list deduplicated by trimmed SKU
code under case-sensitive comparison, keeping the first occurrence with its
first-seen price, so the output codes are pairwise distinct; for the stub
`["A-1", "a-1 ", "A-1"]` the result is the two codes `A-1` and `a-1` with
their first-seen prices. -/
theorem C5_dedup_amended :
    (∀ parse : String → Except JsError ParsedExtraction,
        extractFromResponse none parse = .error ⟨none, some "No response from AI"⟩ ∧
        extractFromResponse (some "") parse = .error ⟨none, some "No response from AI"⟩) ∧
    (∀ ps : List RawProduct, ((dedupBySku ps []).map RawProduct.sku).Nodup) ∧
    (∀ (t : String) (parse : String → Except JsError ParsedExtraction)
        (ps : List RawProduct),
        t ≠ "" → parse t = .ok ⟨some ps⟩ →
        extractFromResponse (some t) parse = .ok (dedupBySku ps [])) ∧
    (dedupBySku [⟨"A-1", some 1, none⟩, ⟨"a-1 ", some 2, none⟩, ⟨"A-1", some 3, none⟩] []).map
        RawProduct.sku = ["A-1", "a-1"] := by
  refine ⟨fun parse => ⟨rfl, rfl⟩, fun ps => (dedup_sku_spec ps []).2, ?_, by decide⟩
  intro t parse ps ht hp
  unfold extractFromResponse
  dsimp only
  rw [if_neg ht, hp]
  rfl

/-- C5 witness: the amended theorem applied at a concrete body and parse
oracle; the duplicate trimmed code keeps its first-seen price. -/
theorem C5_witness :
    extractFromResponse (some "body")
        (fun _ => .ok ⟨some [⟨" X-9 ", some 3, none⟩, ⟨"X-9", some 4, none⟩]⟩)
      = .ok [⟨"X-9", some 3, none⟩] := by
  have h := C5_dedup_amended.2.2.1 "body"
    (fun _ => .ok ⟨some [⟨" X-9 ", some 3, none⟩, ⟨"X-9", some 4, none⟩]⟩)
    [⟨" X-9 ", some 3, none⟩, ⟨"X-9", some 4, none⟩] (by decide) rfl
  rw [h]
  rfl

/-! ## Claim C10 -/

lemma takeWhile_digit_nil {l : List Char} (h : ∀ c ∈ l, c.isDigit = false) :
    l.takeWhile Char.isDigit = [] := by
  cases l with
  | nil => rfl
  | cons c t =>
    exact List.takeWhile_cons_of_neg (by simp [h c (List.mem_cons_self _ _)])

lemma dropWhile_digit_id {l : List Char} (h : ∀ c ∈ l, c.isDigit = false) :
    l.dropWhile Char.isDigit = l := by
  cases l with
  | nil => rfl
  | cons c t =>
    exact List.dropWhile_cons_of_neg (by simp [h c (List.mem_cons_self _ _)])

/-- C10: an absent catalog price string parses to `0`, so a found product
card with an absent price is flagged exactly when its visual price exceeds
0.05; a non-empty price string without digits parses to `NaN`, whose
tolerance comparison is false, so such a product is never flagged. -/
theorem C10_nan_and_absent_price :
    parsePrice none = some 0 ∧
    (∀ a : ℚ, isPriceMismatch true none (some a) = true ↔ (5 : ℚ) / 100 < a) ∧
    (∀ s : String, s ≠ "" → (∀ c ∈ s.toList, c.isDigit = false) →
      parseJsFloat (stripNonNumeric s) = none ∧
      ∀ art : Option ℚ, isPriceMismatch true (some s) art = false) := by
  refine ⟨rfl, ?_, ?_⟩
  · intro a
    simp only [isPriceMismatch, parsePrice, Option.getD_some, Bool.true_and,
      Bool.and_eq_true, decide_eq_true_eq]
    constructor
    · rintro ⟨hpos, hd⟩
      rwa [zero_sub, abs_neg, abs_of_pos hpos] at hd
    · intro h
      have hpos : 0 < a := lt_trans (by norm_num) h
      exact ⟨hpos, by rwa [zero_sub, abs_neg, abs_of_pos hpos]⟩
  · intro s hs hdig
    have hu : ∀ c ∈ (stripNonNumeric s).toList, c.isDigit = false := by
      intro c hc
      have hc' : c ∈ s.toList.filter (fun c => c.isDigit || c = '.') := hc
      rw [List.mem_filter] at hc'
      exact hdig c hc'.1
    have hfp : (match (stripNonNumeric s).toList.dropWhile Char.isDigit with
        | '.' :: t => t.takeWhile Char.isDigit
        | _ => ([] : List Char)) = [] := by
      rw [dropWhile_digit_id hu]
      split
      · rename_i t heq
        apply takeWhile_digit_nil
        intro c hc
        exact hu c (heq ▸ List.mem_cons_of_mem _ hc)
      · rfl
    have hparse : parseJsFloat (stripNonNumeric s) = none := by
      simp only [parseJsFloat]
      rw [takeWhile_digit_nil hu, hfp]
      rfl
    refine ⟨hparse, ?_⟩
    intro art
    simp only [isPriceMismatch, parsePrice]
    rw [if_neg hs, hparse]
    simp

/-- C10 witness: the theorem applied at visual price `1` with an absent
catalog price, and at the digit-free price string `abc`. -/
theorem C10_witness :
    isPriceMismatch true none (some 1) = true ∧
    isPriceMismatch true (some "abc") (some 1) = false := by
  constructor
  · exact (C10_nan_and_absent_price.2.1 1).mpr (by norm_num)
  · exact (C10_nan_and_absent_price.2.2 "abc" (by decide) (by decide)).2 (some 1)

end ArtInspector
